import Mathlib

/-!
Verification of the `deet` debugger core (proj-1/deet/src/inferior.rs and
debugger.rs) against its natural-language specification.

The Rust code drives an OS process through ptrace.  We embed it shallowly:
the traced process and the ptrace layer become an explicit `World` state
(registers, byte-addressed memory, a mapping predicate for which words
ptrace can access, and an oracle `waits` giving the classification returned
by each successive `waitpid`, which models the OS-level nondeterminism of
running the child).  Every ptrace call appends an `Event` to a log so that
theorems can speak about *which* controller operations a code path performs.
Panics (`unwrap` / `expect` / `assert_eq!`) and `nix::Error` propagation
(`?`) are modelled with `Except`.  Rust `usize`/`u64`/`u8` become `Nat`
with explicit bounds where overflow or byte-width matters; Rust strings
become `List Char` (ASCII-faithful, which covers every character the
debugger command syntax involves).
-/

namespace Deet

/-- Signals the embedding distinguishes (`nix::sys::signal::Signal`). -/
inductive Signal
  | SIGTRAP
  | SIGSEGV
  | SIGINT
  | SIGKILL
  deriving DecidableEq, Repr

/-- Stop classification, from `inferior.rs` (`pub enum Status`):
`Stopped(signal, rip)`, `Exited(code)`, `Signaled(signal)`. -/
inductive Status
  | Stopped (sig : Signal) (rip : Nat)
  | Exited (code : Int)
  | Signaled (sig : Signal)
  deriving DecidableEq, Repr

/-- One ptrace-level controller operation, recorded so theorems can state
which operations a code path performs (and in which order). -/
inductive Event
  | getRegs
  | setRegs (rip : Nat)
  | readMem (addr : Nat)
  | writeMem (addr : Nat)
  | singleStep
  | contResume
  | waitEvt
  deriving DecidableEq, Repr

/-- The traced child process plus the ptrace interface, as seen by the
debugger.  `waits` is an oracle giving the classification decoded by the
n-th `waitpid` call; it models the OS scheduling / child-execution
nondeterminism that the debugger merely observes.  `mapped` tells which
aligned words `ptrace::read`/`ptrace::write` can access (`false` models
the `nix::Error` an access to unmapped memory returns). -/
structure World where
  regs : Nat
  mem : Nat → Nat
  mapped : Nat → Bool
  waits : Nat → Status
  nwait : Nat
  events : List Event

/-- Embedded `ptrace::getregs` (always succeeds in the model; only `rip`
is relevant to the verified code paths). -/
def ptraceGetregs (w : World) : Nat × World :=
  (w.regs, { w with events := w.events ++ [Event.getRegs] })

/-- Embedded `ptrace::setregs`. -/
def ptraceSetregs (w : World) (rip : Nat) : World :=
  { w with regs := rip, events := w.events ++ [Event.setRegs rip] }

/-- Embedded `ptrace::step` (the child's subsequent fate is reported by the
next `wait`, via the oracle). -/
def ptraceStep (w : World) : World :=
  { w with events := w.events ++ [Event.singleStep] }

/-- Embedded `ptrace::cont`. -/
def ptraceCont (w : World) : World :=
  { w with events := w.events ++ [Event.contResume] }

/-- Embedded `Inferior::wait` (via `waitpid`): consumes the next oracle
entry.  The `rip` carried by a `Stopped` entry models the register read the
real `wait` performs on a stop. -/
def inferiorWait (w : World) : Status × World :=
  (w.waits w.nwait,
   { w with nwait := w.nwait + 1, events := w.events ++ [Event.waitEvt] })

/-- Little-endian machine word assembled from eight consecutive memory
bytes: what `ptrace::read` returns at an aligned address. -/
def readWord (mem : Nat → Nat) (a : Nat) : Nat :=
  mem a + 256 * (mem (a + 1) + 256 * (mem (a + 2) + 256 * (mem (a + 3) +
    256 * (mem (a + 4) + 256 * (mem (a + 5) + 256 * (mem (a + 6) +
    256 * mem (a + 7)))))))

/-- Memory after `ptrace::write` stores the 64-bit word `word` at aligned
address `a`: the eight bytes of the word replace bytes `a .. a+7`. -/
def writeWord (mem : Nat → Nat) (a word : Nat) : Nat → Nat :=
  fun x => if a ≤ x ∧ x < a + 8 then (word >>> (8 * (x - a))) % 256 else mem x

/-- Embedded fallible `ptrace::read` of one aligned word. -/
def ptraceRead (w : World) (a : Nat) : Except Unit (Nat × World) :=
  if w.mapped a then
    Except.ok (readWord w.mem a, { w with events := w.events ++ [Event.readMem a] })
  else Except.error ()

/-- Embedded fallible `ptrace::write` of one aligned word. -/
def ptraceWrite (w : World) (a word : Nat) : Except Unit World :=
  if w.mapped a then
    Except.ok { w with mem := writeWord w.mem a word,
                       events := w.events ++ [Event.writeMem a] }
  else Except.error ()

/-- From `inferior.rs`: `fn align_addr_to_word(addr) = addr &
(-(size_of::<usize>() as isize) as usize)`; on 64-bit usize the mask is
`2^64 - 8`. -/
def align_addr_to_word (addr : Nat) : Nat :=
  addr &&& (2 ^ 64 - 8)

/-- Byte number `j` of a machine word: `(word >> 8*j) & 0xff`, the exact
extraction expression `Inferior::write_byte` uses. -/
def byteAt (word j : Nat) : Nat :=
  (word >>> (8 * j)) &&& 0xff

/-- Splice byte `val` into `word` at byte offset `off`:
`(word & !(0xff << 8*off)) | (val << 8*off)` from `Inferior::write_byte`
(`!` on `u64` is complement within 64 bits, i.e. xor with `2^64 - 1`). -/
def spliceByte (word off val : Nat) : Nat :=
  (word &&& ((2 ^ 64 - 1) ^^^ (0xff <<< (8 * off)))) ||| (val <<< (8 * off))

/-- Embedded `Inferior::write_byte(addr, val) -> Result<u8, nix::Error>`:
read the containing aligned word, extract the old byte, splice the new one
in, write the whole word back. -/
def write_byte (w : World) (addr val : Nat) : Except Unit (Nat × World) :=
  let aligned := align_addr_to_word addr
  let byte_offset := addr - aligned
  match ptraceRead w aligned with
  | Except.error e => Except.error e
  | Except.ok (word, w1) =>
    let orig_byte := byteAt word byte_offset
    let updated_word := spliceByte word byte_offset val
    match ptraceWrite w1 aligned updated_word with
    | Except.error e => Except.error e
    | Except.ok w2 => Except.ok (orig_byte, w2)

/-- The breakpoint table `HashMap<usize, Option<u8>>` of `Debugger`,
modelled as an association list with unique keys (value `none` = entry
registered but not armed; `some b` = armed with saved original byte `b`). -/
abbrev Table := List (Nat × Option Nat)

/-- Embedded `HashMap::get`. -/
def lookupBp : Table → Nat → Option (Option Nat)
  | [], _ => none
  | (k, v) :: rest, a => if k = a then some v else lookupBp rest a

/-- Embedded `HashMap::contains_key`. -/
def containsKey (t : Table) (a : Nat) : Bool :=
  (lookupBp t a).isSome

/-- Embedded `HashMap::insert` (overwrites an existing key). -/
def insertTable : Table → Nat → Option Nat → Table
  | [], k, v => [(k, v)]
  | (k', v') :: rest, k, v =>
    if k' = k then (k, v) :: rest else (k', v') :: insertTable rest k v

/-- The distinct panic sites of the verified code paths (`unwrap`,
`expect`, `assert_eq!`); a panic terminates the whole program. -/
inductive Panic
  | expectInjected    -- `.expect("breakpoint should been injected")` in continue_exec
  | unwrapFunction    -- `debug_data.get_function_from_addr(addr).unwrap()` in continue_exec
  | unwrapLine        -- `debug_data.get_line_from_addr(addr).unwrap()` in continue_exec
  | assertSigtrap     -- `assert_eq!(signal, Signal::SIGTRAP)` in continue_exec
  | nixExpect         -- `.expect("nix::error")` on continue_exec in debugger.rs
  | expectArm         -- `.expect("Errors: When setting breakpoint at {breakpoint}")`
  | unwrapParse       -- `Debugger::parse_address(&addr).unwrap()` in the `*0x` branch
  deriving DecidableEq, Repr

/-- Failure channel of `Inferior::continue_exec`: either a propagated
`nix::Error` (`?`, payload dropped in the model) or a panic. -/
inductive CEErr
  | nix
  | panic (p : Panic)
  deriving DecidableEq, Repr

/-- The read-only Symbol Resolver (`DwarfData`), abstracted as lookup
functions; function names and module hints are `List Char`, line
descriptors are opaque `Nat`s. -/
structure DwarfData where
  getFunctionFromAddr : Nat → Option (List Char)
  getLineFromAddr : Nat → Option Nat
  getAddrForLine : Option (List Char) → Nat → Option Nat
  getAddrForFunction : Option (List Char) → List Char → Option Nat

/-- Embedded `Inferior::continue_exec` (inferior.rs lines 89-120): compute
`addr = rip - 1`; if `addr` is a key of the breakpoint table, restore the
saved byte (`expect`-panicking if the entry is unarmed), rewind `rip`,
resolve and print symbol context (`unwrap`-panicking on a resolver miss;
the `println!` output itself is not modelled), single-step, classify the
step: `Exited`/`Signaled` return immediately, a stop is asserted to be
SIGTRAP and the trap byte 0xcc is re-patched; finally resume freely and
return the classification of the following wait. -/
def continue_exec (w : World) (bps : Table) (dd : DwarfData) :
    Except CEErr (Status × World) :=
  let rip := (ptraceGetregs w).1
  let w1 := (ptraceGetregs w).2
  let addr := rip - 1
  match lookupBp bps addr with
  | some none => Except.error (CEErr.panic Panic.expectInjected)
  | some (some orig) =>
    match write_byte w1 addr orig with
    | Except.error _ => Except.error CEErr.nix
    | Except.ok (_, w2) =>
      match dd.getFunctionFromAddr addr with
      | none => Except.error (CEErr.panic Panic.unwrapFunction)
      | some _function_name =>
        match dd.getLineFromAddr addr with
        | none => Except.error (CEErr.panic Panic.unwrapLine)
        | some _line =>
          let w3 := ptraceStep (ptraceSetregs w2 (rip - 1))
          let st := (inferiorWait w3).1
          let w4 := (inferiorWait w3).2
          match st with
          | Status.Stopped sig _ =>
            if sig = Signal.SIGTRAP then
              match write_byte w4 addr 0xcc with
              | Except.error _ => Except.error CEErr.nix
              | Except.ok (_, w5) =>
                let w6 := ptraceCont w5
                Except.ok ((inferiorWait w6).1, (inferiorWait w6).2)
            else Except.error (CEErr.panic Panic.assertSigtrap)
          | Status.Exited code => Except.ok (Status.Exited code, w4)
          | Status.Signaled sig => Except.ok (Status.Signaled sig, w4)
  | none =>
    let w6 := ptraceCont w1
    Except.ok ((inferiorWait w6).1, (inferiorWait w6).2)

/-- Embedded `Inferior::new` (inferior.rs lines 49-68).  The argument is
`none` when `Command::spawn` itself fails (`.ok()?`); otherwise it is the
freshly traced child (tracing is enabled by `pre_exec(child_traceme)`
before the program image is executed, which the model takes as given).
The constructor blocks on one `wait` and yields a handle only when the
first observed stop is `Stopped(SIGTRAP, _)`. -/
def inferior_new (spawned : Option World) : Option World :=
  match spawned with
  | none => none
  | some w =>
    let st := (inferiorWait w).1
    let w1 := (inferiorWait w).2
    match st with
    | Status.Stopped sig _ => if sig = Signal.SIGTRAP then some w1 else none
    | _ => none

/-- User-facing messages.  Each constructor stands for one distinct
`println!`/`format!` string of debugger.rs, carrying its runtime
arguments:
`setBreakpoint n a`     = "Set breakpoint {n} at {a:#x}"
`alreadyAdded a`        = "BreakPoint {a:#x} has been added "
`noSuchLine n`          = "No such line {n}"   (n printed in decimal)
`noSuchFunction tok`    = "No such function {tok}"
`notRunning`            = "The program is not running currently!"
`childStopped sig`      = "Child stopped (signal {sig})"
`stoppedAt line`        = "Stopped at {line}"
`childExited code`      = "Child exited (status {code})"
`signaledBy sig`        = "signaled by {sig}"
`errorStartingSubproc`  = "Error starting subprocess". -/
inductive Msg
  | setBreakpoint (idx : Nat) (addr : Nat)
  | alreadyAdded (addr : Nat)
  | noSuchLine (n : Nat)
  | noSuchFunction (tok : List Char)
  | notRunning
  | childStopped (sig : Signal)
  | stoppedAt (line : Nat)
  | childExited (code : Int)
  | signaledBy (sig : Signal)
  | errorStartingSubproc
  deriving DecidableEq, Repr

/-- The status-reporting `match` that both the Run and the Continue arms
of `Debugger::run` perform on the classification `continue_exec` returns
(debugger.rs lines 85-104 and 123-141, identical code). -/
def statusMsgs (dd : DwarfData) (st : Status) : List Msg :=
  match st with
  | Status.Stopped sig rip =>
    Msg.childStopped sig ::
      (match dd.getLineFromAddr rip with
       | some line => [Msg.stoppedAt line]
       | none => [])
  | Status.Exited code => [Msg.childExited code]
  | Status.Signaled sig => [Msg.signaledBy sig]

/-- The breakpoint-injection loop of the Run arm (debugger.rs lines
71-80): iterate over a clone of the table; entries whose saved byte is
`some _` are skipped (`if prev_byte.is_some() { continue; }`); for the
rest, write the trap byte into the fresh target (panicking via `expect`
on a nix error) and store the returned original byte. -/
def armLoop : List (Nat × Option Nat) → World → Table → Except Panic (World × Table)
  | [], w, t => Except.ok (w, t)
  | (addr, prevByte) :: rest, w, t =>
    if prevByte.isSome then armLoop rest w t
    else
      match write_byte w addr 0xcc with
      | Except.error _ => Except.error Panic.expectArm
      | Except.ok (prev, w') => armLoop rest w' (insertTable t addr (some prev))

/-- Embedded Run arm of `Debugger::run` (debugger.rs lines 57-108).
`spawned` feeds `Inferior::new` as above; on failure the arm prints the
error message and leaves both the old target and the table untouched.  On
success the previous target is killed and replaced (its `try_kill` is not
otherwise observable here), the injection loop runs, `continue_exec` is
invoked (`.expect("nix::error")` turns a nix error into a panic), and the
resulting classification is rendered.  The (possibly dead) new target
stays installed. -/
def runArm (spawned : Option World) (inferior : Option World) (bps : Table)
    (dd : DwarfData) : Except Panic (Option World × Table × List Msg) :=
  match inferior_new spawned with
  | none => Except.ok (inferior, bps, [Msg.errorStartingSubproc])
  | some newInf =>
    match armLoop bps newInf bps with
    | Except.error p => Except.error p
    | Except.ok (w1, bps1) =>
      match continue_exec w1 bps1 dd with
      | Except.error (CEErr.panic p) => Except.error p
      | Except.error CEErr.nix => Except.error Panic.nixExpect
      | Except.ok (st, w2) => Except.ok (some w2, bps1, statusMsgs dd st)

/-- Embedded Continue arm of `Debugger::run` (debugger.rs lines 117-144):
with no live target it only prints the not-running notice; otherwise it
runs `continue_exec` (`.expect("nix::error")` panics on a nix error) and
renders the classification.  The target handle stays installed even after
an `Exited` classification. -/
def continueArm (inferior : Option World) (bps : Table) (dd : DwarfData) :
    Except Panic (Option World × List Msg) :=
  match inferior with
  | none => Except.ok (none, [Msg.notRunning])
  | some w =>
    match continue_exec w bps dd with
    | Except.error (CEErr.panic p) => Except.error p
    | Except.error CEErr.nix => Except.error Panic.nixExpect
    | Except.ok (st, w') => Except.ok (some w', statusMsgs dd st)

/-- ASCII case-folding of `str::to_lowercase`, spelled out per uppercase
letter (sufficient for every character the command syntax involves). -/
def lowerChar (c : Char) : Char :=
  if c = 'A' then 'a' else if c = 'B' then 'b' else if c = 'C' then 'c'
  else if c = 'D' then 'd' else if c = 'E' then 'e' else if c = 'F' then 'f'
  else if c = 'G' then 'g' else if c = 'H' then 'h' else if c = 'I' then 'i'
  else if c = 'J' then 'j' else if c = 'K' then 'k' else if c = 'L' then 'l'
  else if c = 'M' then 'm' else if c = 'N' then 'n' else if c = 'O' then 'o'
  else if c = 'P' then 'p' else if c = 'Q' then 'q' else if c = 'R' then 'r'
  else if c = 'S' then 's' else if c = 'T' then 't' else if c = 'U' then 'u'
  else if c = 'V' then 'v' else if c = 'W' then 'w' else if c = 'X' then 'x'
  else if c = 'Y' then 'y' else if c = 'Z' then 'z' else c

/-- Embedded `str::starts_with` on char lists. -/
def startsWithL : List Char → List Char → Bool
  | _, [] => true
  | [], _ :: _ => false
  | c :: s, d :: p => c = d && startsWithL s p

/-- Embedded `char::to_digit(16)`: the numeric value of one hexadecimal
digit, accepting `0`-`9` and both letter cases (grouped by value). -/
def hexDigitVal : Char → Option Nat
  | '0' => some 0
  | 'a' => some 10
  | 'A' => some 10
  | '1' => some 1
  | 'b' => some 11
  | 'B' => some 11
  | '2' => some 2
  | 'c' => some 12
  | 'C' => some 12
  | '3' => some 3
  | 'd' => some 13
  | 'D' => some 13
  | '4' => some 4
  | 'e' => some 14
  | 'E' => some 14
  | '5' => some 5
  | 'f' => some 15
  | 'F' => some 15
  | '6' => some 6
  | '7' => some 7
  | '8' => some 8
  | '9' => some 9
  | _ => none

/-- One accumulation step of `from_str_radix(_, 16)`: shift the value one
hex digit left and add the digit, failing on a non-digit. -/
def hexStep (acc : Option Nat) (c : Char) : Option Nat :=
  match acc, hexDigitVal c with
  | some n, some d => some (16 * n + d)
  | _, _ => none

/-- Embedded `usize::from_str_radix(s, 16)`: an optional leading `+`, then
a nonempty run of hexadecimal digits; values exceeding `usize::MAX`
overflow to an error. -/
def fromStrRadix16 (s : List Char) : Option Nat :=
  let digits := match s with | '+' :: rest => rest | _ => s
  if digits.isEmpty then none
  else
    match digits.foldl hexStep (some 0) with
    | none => none
    | some n => if n < 2 ^ 64 then some n else none

/-- Embedded `Debugger::parse_address` (debugger.rs lines 266-273): strip
a case-insensitive `0x` prefix (the check lower-cases, the slice is on the
original string), then parse base 16. -/
def parse_address (addr : List Char) : Option Nat :=
  let addr_without_0x :=
    if startsWithL (addr.map lowerChar) ['0', 'x'] then addr.drop 2 else addr
  fromStrRadix16 addr_without_0x

/-- Embedded `Debugger::record_breakpoint` (debugger.rs lines 204-223):
an address already in the table only gets the already-added message; a
fresh address is announced with index `table.len()` and, when a target is
live, armed at once (`expect`-panicking on a nix error), recording the
returned original byte; with no target it is registered unarmed. -/
def recordBreakpoint (addr : Nat) (inferior : Option World) (bps : Table) :
    Except Panic (Option World × Table × List Msg) :=
  if containsKey bps addr then
    Except.ok (inferior, bps, [Msg.alreadyAdded addr])
  else
    let msg := Msg.setBreakpoint bps.length addr
    match inferior with
    | some w =>
      match write_byte w addr 0xcc with
      | Except.error _ => Except.error Panic.expectArm
      | Except.ok (prev, w') =>
        Except.ok (some w', insertTable bps addr (some prev), [msg])
    | none => Except.ok (none, insertTable bps addr none, [msg])

/-- Embedded Break arm of `Debugger::run` (debugger.rs lines 154-199):
a token starting with `*0x` has the `*` removed and the rest parsed as an
address (`unwrap`-panicking on a parse failure); any other token is first
parsed as a hexadecimal number — success sends it to the *line* lookup,
whose miss prints the parsed number — and only a parse failure sends the
token to the function lookup, whose miss prints the original token. -/
def breakArm (tok : List Char) (dd : DwarfData) (inferior : Option World)
    (bps : Table) : Except Panic (Option World × Table × List Msg) :=
  if startsWithL tok ['*', '0', 'x'] then
    match parse_address (tok.drop 1) with
    | none => Except.error Panic.unwrapParse
    | some addr => recordBreakpoint addr inferior bps
  else
    match parse_address tok with
    | some line =>
      match dd.getAddrForLine none line with
      | some addr => recordBreakpoint addr inferior bps
      | none => Except.ok (inferior, bps, [Msg.noSuchLine line])
    | none =>
      match dd.getAddrForFunction none tok with
      | some addr => recordBreakpoint addr inferior bps
      | none => Except.ok (inferior, bps, [Msg.noSuchFunction tok])

/-! ### Arithmetic facts about the word-aligned byte patching -/

theorem align_eq_div (addr : Nat) (h : addr < 2 ^ 64) :
    align_addr_to_word addr = 8 * (addr / 8) := by
  have h8 : (2 : Nat) ^ 64 - 8 = (2 ^ 61 - 1) <<< 3 := by
    norm_num [Nat.shiftLeft_eq]
  have hd : 8 * (addr / 8) = (addr >>> 3) <<< 3 := by
    rw [Nat.shiftLeft_eq, Nat.shiftRight_eq_div_pow]
    norm_num [Nat.mul_comm]
  apply Nat.eq_of_testBit_eq
  intro i
  rw [align_addr_to_word, h8, hd]
  simp only [Nat.testBit_and, Nat.testBit_shiftLeft, Nat.testBit_shiftRight,
    Nat.testBit_two_pow_sub_one, ge_iff_le]
  by_cases h3 : 3 ≤ i
  · have hi : 3 + (i - 3) = i := by omega
    rw [hi]
    by_cases h64 : i < 64
    · simp [h3, show i - 3 < 61 by omega]
    · have hb : addr.testBit i = false :=
        Nat.testBit_lt_two_pow
          (lt_of_lt_of_le h (Nat.pow_le_pow_right (by norm_num) (by omega)))
      simp [hb, show ¬(i - 3 < 61) by omega]
  · simp [h3]

theorem align_le_self (addr : Nat) (h : addr < 2 ^ 64) :
    align_addr_to_word addr ≤ addr := by
  rw [align_eq_div addr h]; omega

theorem align_offset (addr : Nat) (h : addr < 2 ^ 64) :
    addr - align_addr_to_word addr = addr % 8 := by
  rw [align_eq_div addr h]; omega

theorem align_add_offset (addr : Nat) (h : addr < 2 ^ 64) :
    align_addr_to_word addr + addr % 8 = addr := by
  rw [align_eq_div addr h]; omega

theorem byte_testBit_high {val k : Nat} (hval : val < 256) (hk : 8 ≤ k) :
    val.testBit k = false := by
  have h : val < 2 ^ k :=
    lt_of_lt_of_le (show val < 2 ^ 8 by norm_num; omega)
      (Nat.pow_le_pow_right (by norm_num) hk)
  exact Nat.testBit_lt_two_pow h

theorem byteAt_eq_mod (word j : Nat) :
    byteAt word j = (word >>> (8 * j)) % 256 := by
  rw [byteAt, show (0xff : Nat) = 2 ^ 8 - 1 by norm_num,
    Nat.and_pow_two_sub_one_eq_mod]

theorem byteAt_readWord (mem : Nat → Nat) (a j : Nat)
    (hwf : ∀ x, mem x < 256) (hj : j < 8) :
    byteAt (readWord mem a) j = mem (a + j) := by
  rw [byteAt_eq_mod, Nat.shiftRight_eq_div_pow]
  have h0 := hwf a
  have h1 := hwf (a + 1)
  have h2 := hwf (a + 2)
  have h3 := hwf (a + 3)
  have h4 := hwf (a + 4)
  have h5 := hwf (a + 5)
  have h6 := hwf (a + 6)
  have h7 := hwf (a + 7)
  interval_cases j <;> · simp only [readWord]; norm_num; omega

theorem byteAt_spliceByte_same (word off val : Nat)
    (hoff : off < 8) (hval : val < 256) :
    byteAt (spliceByte word off val) off = val := by
  rw [byteAt_eq_mod, show (256 : Nat) = 2 ^ 8 by norm_num]
  apply Nat.eq_of_testBit_eq
  intro k
  simp only [spliceByte, Nat.testBit_mod_two_pow, Nat.testBit_shiftRight,
    Nat.testBit_or, Nat.testBit_and, Nat.testBit_xor, Nat.testBit_shiftLeft,
    show (0xff : Nat) = 2 ^ 8 - 1 by norm_num, Nat.testBit_two_pow_sub_one,
    show (2 : Nat) ^ 64 - 1 = 2 ^ 64 - 1 from rfl, ge_iff_le]
  by_cases hk : k < 8
  · have hle : 8 * off ≤ 8 * off + k := by omega
    have hsub : 8 * off + k - 8 * off = k := by omega
    have h64 : 8 * off + k < 64 := by omega
    simp [hk, hle, hsub, h64]
  · have hv : val.testBit k = false := byte_testBit_high hval (by omega)
    simp [hk, hv]

theorem byteAt_spliceByte_other (word off val j : Nat)
    (_hoff : off < 8) (hj : j < 8) (hne : j ≠ off) (hval : val < 256) :
    byteAt (spliceByte word off val) j = byteAt word j := by
  rw [byteAt_eq_mod, byteAt_eq_mod, show (256 : Nat) = 2 ^ 8 by norm_num]
  apply Nat.eq_of_testBit_eq
  intro k
  simp only [spliceByte, Nat.testBit_mod_two_pow, Nat.testBit_shiftRight,
    Nat.testBit_or, Nat.testBit_and, Nat.testBit_xor, Nat.testBit_shiftLeft,
    show (0xff : Nat) = 2 ^ 8 - 1 by norm_num, Nat.testBit_two_pow_sub_one,
    ge_iff_le]
  by_cases hk : k < 8
  · have h64 : 8 * j + k < 64 := by omega
    rcases Nat.lt_or_ge j off with hlt | hge
    · have hno : ¬(8 * off ≤ 8 * j + k) := by omega
      simp [hk, h64, hno]
    · have hgt : off < j := by omega
      have hle : 8 * off ≤ 8 * j + k := by omega
      have hbig : ¬(8 * j + k - 8 * off < 8) := by omega
      have hv : val.testBit (8 * j + k - 8 * off) = false :=
        byte_testBit_high hval (by omega)
      simp [hk, h64, hle, hbig, hv]
  · simp [hk]

theorem writeWord_in (mem : Nat → Nat) (a word j : Nat) (hj : j < 8) :
    writeWord mem a word (a + j) = byteAt word j := by
  rw [writeWord, byteAt_eq_mod]
  have hc : a ≤ a + j ∧ a + j < a + 8 := ⟨by omega, by omega⟩
  rw [if_pos hc]
  congr 2
  omega

theorem writeWord_out (mem : Nat → Nat) (a word x : Nat)
    (hx : x < a ∨ a + 8 ≤ x) : writeWord mem a word x = mem x := by
  rw [writeWord, if_neg]
  omega

theorem writeWord_wf (mem : Nat → Nat) (a word : Nat)
    (hwf : ∀ y, mem y < 256) : ∀ x, writeWord mem a word x < 256 := by
  intro x
  rw [writeWord]
  split
  · exact Nat.mod_lt _ (by norm_num)
  · exact hwf x

theorem write_byte_run (w : World) (a v : Nat)
    (hmap : w.mapped (align_addr_to_word a) = true) :
    write_byte w a v =
      Except.ok
        (byteAt (readWord w.mem (align_addr_to_word a)) (a - align_addr_to_word a),
         { w with
             mem := writeWord w.mem (align_addr_to_word a)
               (spliceByte (readWord w.mem (align_addr_to_word a))
                 (a - align_addr_to_word a) v),
             events := w.events ++
               [Event.readMem (align_addr_to_word a),
                Event.writeMem (align_addr_to_word a)] }) := by
  simp [write_byte, ptraceRead, ptraceWrite, hmap]

theorem write_byte_mem_char (w : World) (a v : Nat)
    (hwf : ∀ x, w.mem x < 256) (ha : a < 2 ^ 64) (hv : v < 256) :
    ∀ x, writeWord w.mem (align_addr_to_word a)
        (spliceByte (readWord w.mem (align_addr_to_word a))
          (a - align_addr_to_word a) v) x
      = if x = a then v else w.mem x := by
  intro x
  have hoff : a - align_addr_to_word a = a % 8 := align_offset a ha
  have hA : align_addr_to_word a + a % 8 = a := align_add_offset a ha
  have hlt : a % 8 < 8 := Nat.mod_lt _ (by norm_num)
  rcases Nat.lt_or_ge x (align_addr_to_word a) with hlo | hge
  · rw [writeWord_out _ _ _ _ (Or.inl hlo), if_neg]
    omega
  · rcases Nat.lt_or_ge x (align_addr_to_word a + 8) with hin | hhi
    · obtain ⟨j, hj, rfl⟩ : ∃ j, j < 8 ∧ x = align_addr_to_word a + j :=
        ⟨x - align_addr_to_word a, by omega, by omega⟩
      rw [writeWord_in _ _ _ _ hj, hoff]
      by_cases hja : j = a % 8
      · subst hja
        rw [byteAt_spliceByte_same _ _ _ hlt hv, if_pos (by omega)]
      · rw [byteAt_spliceByte_other _ _ _ _ hlt hj hja hv,
          byteAt_readWord _ _ _ hwf hj, if_neg (by omega)]
    · rw [writeWord_out _ _ _ _ (Or.inr hhi), if_neg]
      omega

theorem write_byte_ret (w : World) (a : Nat)
    (hwf : ∀ x, w.mem x < 256) (ha : a < 2 ^ 64) :
    byteAt (readWord w.mem (align_addr_to_word a)) (a - align_addr_to_word a)
      = w.mem a := by
  have hoff : a - align_addr_to_word a = a % 8 := align_offset a ha
  have hA : align_addr_to_word a + a % 8 = a := align_add_offset a ha
  rw [hoff, byteAt_readWord _ _ _ hwf (Nat.mod_lt _ (by norm_num)), hA]

/-! ### Characterization of `continue_exec`, branch by branch -/

theorem ce_unarmed (w : World) (bps : Table) (dd : DwarfData)
    (h : lookupBp bps (w.regs - 1) = some none) :
    continue_exec w bps dd = Except.error (CEErr.panic Panic.expectInjected) := by
  simp only [continue_exec, ptraceGetregs]
  rw [h]

theorem ce_notreg (w : World) (bps : Table) (dd : DwarfData)
    (h : lookupBp bps (w.regs - 1) = none) :
    continue_exec w bps dd = Except.ok (w.waits w.nwait,
      { w with nwait := w.nwait + 1,
               events := w.events ++
                 [Event.getRegs, Event.contResume, Event.waitEvt] }) := by
  simp only [continue_exec, ptraceGetregs]
  rw [h]
  simp [ptraceCont, inferiorWait]

theorem ce_armed_nixfail (w : World) (bps : Table) (dd : DwarfData) (orig : Nat)
    (hbp : lookupBp bps (w.regs - 1) = some (some orig))
    (hmap : w.mapped (align_addr_to_word (w.regs - 1)) = false) :
    continue_exec w bps dd = Except.error CEErr.nix := by
  simp only [continue_exec, ptraceGetregs]
  rw [hbp]
  simp [write_byte, ptraceRead, hmap]

theorem ce_armed_exited (w : World) (bps : Table) (dd : DwarfData)
    (orig : Nat) (fn : List Char) (ln : Nat) (code : Int)
    (hbp : lookupBp bps (w.regs - 1) = some (some orig))
    (hf : dd.getFunctionFromAddr (w.regs - 1) = some fn)
    (hl : dd.getLineFromAddr (w.regs - 1) = some ln)
    (hmap : w.mapped (align_addr_to_word (w.regs - 1)) = true)
    (hst : w.waits w.nwait = Status.Exited code) :
    continue_exec w bps dd = Except.ok (Status.Exited code,
      { w with
          mem := writeWord w.mem (align_addr_to_word (w.regs - 1))
            (spliceByte (readWord w.mem (align_addr_to_word (w.regs - 1)))
              ((w.regs - 1) - align_addr_to_word (w.regs - 1)) orig),
          regs := w.regs - 1,
          nwait := w.nwait + 1,
          events := w.events ++
            [Event.getRegs,
             Event.readMem (align_addr_to_word (w.regs - 1)),
             Event.writeMem (align_addr_to_word (w.regs - 1)),
             Event.setRegs (w.regs - 1), Event.singleStep, Event.waitEvt] }) := by
  simp [continue_exec, ptraceGetregs, ptraceSetregs, ptraceStep, ptraceCont,
    inferiorWait, hbp, hf, hl, hst, write_byte_run, hmap, List.append_assoc]

theorem ce_armed_signaled (w : World) (bps : Table) (dd : DwarfData)
    (orig : Nat) (fn : List Char) (ln : Nat) (sig : Signal)
    (hbp : lookupBp bps (w.regs - 1) = some (some orig))
    (hf : dd.getFunctionFromAddr (w.regs - 1) = some fn)
    (hl : dd.getLineFromAddr (w.regs - 1) = some ln)
    (hmap : w.mapped (align_addr_to_word (w.regs - 1)) = true)
    (hst : w.waits w.nwait = Status.Signaled sig) :
    continue_exec w bps dd = Except.ok (Status.Signaled sig,
      { w with
          mem := writeWord w.mem (align_addr_to_word (w.regs - 1))
            (spliceByte (readWord w.mem (align_addr_to_word (w.regs - 1)))
              ((w.regs - 1) - align_addr_to_word (w.regs - 1)) orig),
          regs := w.regs - 1,
          nwait := w.nwait + 1,
          events := w.events ++
            [Event.getRegs,
             Event.readMem (align_addr_to_word (w.regs - 1)),
             Event.writeMem (align_addr_to_word (w.regs - 1)),
             Event.setRegs (w.regs - 1), Event.singleStep, Event.waitEvt] }) := by
  simp [continue_exec, ptraceGetregs, ptraceSetregs, ptraceStep, ptraceCont,
    inferiorWait, hbp, hf, hl, hst, write_byte_run, hmap, List.append_assoc]

theorem ce_armed_stop_other (w : World) (bps : Table) (dd : DwarfData)
    (orig : Nat) (fn : List Char) (ln : Nat) (sig : Signal) (r : Nat)
    (hbp : lookupBp bps (w.regs - 1) = some (some orig))
    (hf : dd.getFunctionFromAddr (w.regs - 1) = some fn)
    (hl : dd.getLineFromAddr (w.regs - 1) = some ln)
    (hmap : w.mapped (align_addr_to_word (w.regs - 1)) = true)
    (hst : w.waits w.nwait = Status.Stopped sig r)
    (hsig : sig ≠ Signal.SIGTRAP) :
    continue_exec w bps dd = Except.error (CEErr.panic Panic.assertSigtrap) := by
  simp [continue_exec, ptraceGetregs, ptraceSetregs, ptraceStep, ptraceCont,
    inferiorWait, hbp, hf, hl, hst, hsig, write_byte_run, hmap, List.append_assoc]

theorem ce_armed_sigtrap (w : World) (bps : Table) (dd : DwarfData)
    (orig : Nat) (fn : List Char) (ln : Nat) (r : Nat)
    (hbp : lookupBp bps (w.regs - 1) = some (some orig))
    (hf : dd.getFunctionFromAddr (w.regs - 1) = some fn)
    (hl : dd.getLineFromAddr (w.regs - 1) = some ln)
    (hmap : w.mapped (align_addr_to_word (w.regs - 1)) = true)
    (hst : w.waits w.nwait = Status.Stopped Signal.SIGTRAP r) :
    continue_exec w bps dd = Except.ok (w.waits (w.nwait + 1),
      { w with
          mem := writeWord
            (writeWord w.mem (align_addr_to_word (w.regs - 1))
              (spliceByte (readWord w.mem (align_addr_to_word (w.regs - 1)))
                ((w.regs - 1) - align_addr_to_word (w.regs - 1)) orig))
            (align_addr_to_word (w.regs - 1))
            (spliceByte
              (readWord
                (writeWord w.mem (align_addr_to_word (w.regs - 1))
                  (spliceByte (readWord w.mem (align_addr_to_word (w.regs - 1)))
                    ((w.regs - 1) - align_addr_to_word (w.regs - 1)) orig))
                (align_addr_to_word (w.regs - 1)))
              ((w.regs - 1) - align_addr_to_word (w.regs - 1)) 0xcc),
          regs := w.regs - 1,
          nwait := w.nwait + 2,
          events := w.events ++
            [Event.getRegs,
             Event.readMem (align_addr_to_word (w.regs - 1)),
             Event.writeMem (align_addr_to_word (w.regs - 1)),
             Event.setRegs (w.regs - 1), Event.singleStep, Event.waitEvt,
             Event.readMem (align_addr_to_word (w.regs - 1)),
             Event.writeMem (align_addr_to_word (w.regs - 1)),
             Event.contResume, Event.waitEvt] }) := by
  simp [continue_exec, ptraceGetregs, ptraceSetregs, ptraceStep, ptraceCont,
    inferiorWait, hbp, hf, hl, hst, write_byte_run, hmap, List.append_assoc]

/-! ### Claim C4 -/

/-- C4: `write_byte(addr, val)` on a live target returns exactly the byte
that occupied `addr` immediately before the call, and changes only the
byte at `addr`: every other byte (in particular every other byte of the
containing word-aligned machine word) has the same value after the call
as before. -/
theorem write_byte_correct (w : World) (a v : Nat)
    (hwf : ∀ x, w.mem x < 256) (ha : a < 2 ^ 64) (hv : v < 256)
    (hmap : w.mapped (align_addr_to_word a) = true) :
    ∃ w', write_byte w a v = Except.ok (w.mem a, w') ∧
      w'.mem a = v ∧ (∀ x, x ≠ a → w'.mem x = w.mem x) := by
  have hrun := write_byte_run w a v hmap
  rw [write_byte_ret w a hwf ha] at hrun
  refine ⟨_, hrun, ?_, ?_⟩
  · have := write_byte_mem_char w a v hwf ha hv a
    simpa using this
  · intro x hx
    have := write_byte_mem_char w a v hwf ha hv x
    simpa [hx] using this

/-- Concrete world used to witness C4. -/
def wC4 : World :=
  { regs := 0, mem := fun _ => 7, mapped := fun _ => true,
    waits := fun _ => Status.Exited 0, nwait := 0, events := [] }

theorem write_byte_correct_witness :
    (∀ x, wC4.mem x < 256) ∧
    ∃ w', write_byte wC4 4097 204 = Except.ok (wC4.mem 4097, w') ∧
      w'.mem 4097 = 204 ∧ (∀ x, x ≠ 4097 → w'.mem x = wC4.mem x) :=
  ⟨fun _ => by norm_num [wC4],
   write_byte_correct wC4 4097 204 (fun _ => by norm_num [wC4])
     (by norm_num) (by norm_num) (by norm_num [wC4])⟩

/-! ### Claim C1 -/

/-- C1 (amended): on `continue` for a live stopped target, the engine
reads the registers and computes `candidate = rip - 1`.  If `candidate`
is a registered *armed* breakpoint (and the symbol lookups at `candidate`
succeed — they are `unwrap`ped), it (a) restores the saved original byte
at `candidate`, (b) rewinds the instruction pointer to `candidate`,
(c) performs exactly one single step, (d) if that step reports
`Exited`/`Signaled` it returns that classification immediately without
re-arming, (e) if the step reports a SIGTRAP stop it re-writes the trap
byte 0xcc at `candidate` and (f) resumes freely, returning the
classification of the following wait — but a stop with any *other* signal
terminates the program through the `assert_eq!(signal, SIGTRAP)` panic
instead of re-arming.  If `candidate` is not registered at all, the engine
proceeds directly to the free resume. -/
theorem continue_exec_step_over (w : World) (bps : Table) (dd : DwarfData)
    (hwf : ∀ x, w.mem x < 256) (hrip : w.regs < 2 ^ 64) :
    (∀ orig fn ln, orig < 256 →
      lookupBp bps (w.regs - 1) = some (some orig) →
      dd.getFunctionFromAddr (w.regs - 1) = some fn →
      dd.getLineFromAddr (w.regs - 1) = some ln →
      w.mapped (align_addr_to_word (w.regs - 1)) = true →
      (∀ code, w.waits w.nwait = Status.Exited code →
        ∃ w', continue_exec w bps dd = Except.ok (Status.Exited code, w') ∧
          w'.mem (w.regs - 1) = orig ∧
          (∀ x, x ≠ w.regs - 1 → w'.mem x = w.mem x) ∧
          w'.regs = w.regs - 1 ∧
          w'.events = w.events ++
            [Event.getRegs,
             Event.readMem (align_addr_to_word (w.regs - 1)),
             Event.writeMem (align_addr_to_word (w.regs - 1)),
             Event.setRegs (w.regs - 1), Event.singleStep, Event.waitEvt]) ∧
      (∀ sig, w.waits w.nwait = Status.Signaled sig →
        ∃ w', continue_exec w bps dd = Except.ok (Status.Signaled sig, w') ∧
          w'.mem (w.regs - 1) = orig ∧
          (∀ x, x ≠ w.regs - 1 → w'.mem x = w.mem x) ∧
          w'.regs = w.regs - 1 ∧
          w'.events = w.events ++
            [Event.getRegs,
             Event.readMem (align_addr_to_word (w.regs - 1)),
             Event.writeMem (align_addr_to_word (w.regs - 1)),
             Event.setRegs (w.regs - 1), Event.singleStep, Event.waitEvt]) ∧
      (∀ r, w.waits w.nwait = Status.Stopped Signal.SIGTRAP r →
        ∃ w', continue_exec w bps dd = Except.ok (w.waits (w.nwait + 1), w') ∧
          w'.mem (w.regs - 1) = 0xcc ∧
          (∀ x, x ≠ w.regs - 1 → w'.mem x = w.mem x) ∧
          w'.regs = w.regs - 1 ∧
          w'.events = w.events ++
            [Event.getRegs,
             Event.readMem (align_addr_to_word (w.regs - 1)),
             Event.writeMem (align_addr_to_word (w.regs - 1)),
             Event.setRegs (w.regs - 1), Event.singleStep, Event.waitEvt,
             Event.readMem (align_addr_to_word (w.regs - 1)),
             Event.writeMem (align_addr_to_word (w.regs - 1)),
             Event.contResume, Event.waitEvt]) ∧
      (∀ sig r, w.waits w.nwait = Status.Stopped sig r →
        sig ≠ Signal.SIGTRAP →
        continue_exec w bps dd =
          Except.error (CEErr.panic Panic.assertSigtrap))) ∧
    (lookupBp bps (w.regs - 1) = none →
      continue_exec w bps dd = Except.ok (w.waits w.nwait,
        { w with nwait := w.nwait + 1,
                 events := w.events ++
                   [Event.getRegs, Event.contResume, Event.waitEvt] })) := by
  have haddr : w.regs - 1 < 2 ^ 64 := by omega
  constructor
  · intro orig fn ln horig hbp hf hl hmap
    have hmem1 := write_byte_mem_char w (w.regs - 1) orig hwf haddr horig
    refine ⟨?_, ?_, ?_, ?_⟩
    · intro code hst
      refine ⟨_, ce_armed_exited w bps dd orig fn ln code hbp hf hl hmap hst,
        ?_, ?_, rfl, rfl⟩
      · simpa using hmem1 (w.regs - 1)
      · intro x hx
        simpa [hx] using hmem1 x
    · intro sig hst
      refine ⟨_, ce_armed_signaled w bps dd orig fn ln sig hbp hf hl hmap hst,
        ?_, ?_, rfl, rfl⟩
      · simpa using hmem1 (w.regs - 1)
      · intro x hx
        simpa [hx] using hmem1 x
    · intro r hst
      have hwf1 : ∀ x, writeWord w.mem (align_addr_to_word (w.regs - 1))
          (spliceByte (readWord w.mem (align_addr_to_word (w.regs - 1)))
            ((w.regs - 1) - align_addr_to_word (w.regs - 1)) orig) x < 256 :=
        writeWord_wf _ _ _ hwf
      have hmem2 := write_byte_mem_char
        { w with
            mem := writeWord w.mem (align_addr_to_word (w.regs - 1))
              (spliceByte (readWord w.mem (align_addr_to_word (w.regs - 1)))
                ((w.regs - 1) - align_addr_to_word (w.regs - 1)) orig),
            regs := w.regs - 1,
            nwait := w.nwait + 1,
            events := w.events ++
              [Event.getRegs,
               Event.readMem (align_addr_to_word (w.regs - 1)),
               Event.writeMem (align_addr_to_word (w.regs - 1)),
               Event.setRegs (w.regs - 1), Event.singleStep, Event.waitEvt] }
        (w.regs - 1) 0xcc hwf1 haddr (by norm_num)
      refine ⟨_, ce_armed_sigtrap w bps dd orig fn ln r hbp hf hl hmap hst,
        ?_, ?_, rfl, rfl⟩
      · simpa using hmem2 (w.regs - 1)
      · intro x hx
        have h2 := hmem2 x
        simp only [hx, if_false] at h2
        simp only [h2]
        simpa [hx] using hmem1 x
    · intro sig r hst hsig
      exact ce_armed_stop_other w bps dd orig fn ln sig r hbp hf hl hmap hst hsig
  · intro h
    exact ce_notreg w bps dd h

/-- Concrete inputs exhibiting the SIGTRAP assertion in `continue_exec`. -/
def wC1x : World :=
  { regs := 4097, mem := fun _ => 0, mapped := fun _ => true,
    waits := fun _ => Status.Stopped Signal.SIGSEGV 0, nwait := 0, events := [] }

/-- Breakpoint table with address 4096 armed (saved byte 144), used by the
C1 exhibits. -/
def bpsC1 : Table := [(4096, some 144)]

/-- Resolver that knows address 4096, used by the C1 exhibits. -/
def ddC1 : DwarfData :=
  { getFunctionFromAddr := fun a => if a = 4096 then some ['m', 'a', 'i', 'n'] else none,
    getLineFromAddr := fun a => if a = 4096 then some 3 else none,
    getAddrForLine := fun _ _ => none,
    getAddrForFunction := fun _ _ => none }

/-- C1 counterexample: stopped one past the armed breakpoint 4096, the
single step reports `Stopped(SIGSEGV)`; the claim's step (e) ("otherwise
re-writes the trap byte and resumes freely, returning the classification
of the following wait") requires a successful resume, but the code panics
in `assert_eq!(signal, SIGTRAP)` and returns no classification at all. -/
theorem continue_exec_nontrap_stop_panics :
    continue_exec wC1x bpsC1 ddC1 =
      Except.error (CEErr.panic Panic.assertSigtrap) ∧
    (continue_exec wC1x bpsC1 ddC1).isOk = false := by
  have h := ce_armed_stop_other wC1x bpsC1 ddC1 144 ['m', 'a', 'i', 'n'] 3
    Signal.SIGSEGV 0 (by rfl) (by rfl) (by rfl) rfl rfl (by decide)
  exact ⟨h, by rw [h]; rfl⟩

/-- Concrete world used to witness the amended C1: the step reports a
clean exit, so the engine must propagate `Exited 0` without re-arming. -/
def wC1w : World :=
  { regs := 4097, mem := fun _ => 7, mapped := fun _ => true,
    waits := fun _ => Status.Exited 0, nwait := 0, events := [] }

theorem continue_exec_step_over_witness :
    lookupBp bpsC1 (wC1w.regs - 1) = some (some 144) ∧
    ∃ w', continue_exec wC1w bpsC1 ddC1 = Except.ok (Status.Exited 0, w') ∧
      w'.mem (wC1w.regs - 1) = 144 ∧
      (∀ x, x ≠ wC1w.regs - 1 → w'.mem x = wC1w.mem x) ∧
      w'.regs = wC1w.regs - 1 ∧
      w'.events = wC1w.events ++
        [Event.getRegs,
         Event.readMem (align_addr_to_word (wC1w.regs - 1)),
         Event.writeMem (align_addr_to_word (wC1w.regs - 1)),
         Event.setRegs (wC1w.regs - 1), Event.singleStep, Event.waitEvt] :=
  ⟨by rfl,
   ((continue_exec_step_over wC1w bpsC1 ddC1 (fun _ => by norm_num [wC1w])
      (by norm_num [wC1w])).1 144 ['m', 'a', 'i', 'n'] 3 (by norm_num)
      (by rfl) (by rfl) (by rfl) rfl).1 0 rfl⟩

/-! ### Claim C9 -/

/-- C9: `continue_exec` panics (rather than returning an error value or a
stop classification) exactly when the address one below the stopped
instruction pointer is a key of the breakpoint table whose stored
original byte is absent; whenever every registered breakpoint met at a
stop site carries a saved byte (or the address is not registered at all),
that panic cannot occur. -/
theorem continue_exec_unarmed_panic (w : World) (bps : Table) (dd : DwarfData) :
    (lookupBp bps (w.regs - 1) = some none →
      continue_exec w bps dd =
        Except.error (CEErr.panic Panic.expectInjected)) ∧
    (∀ orig, lookupBp bps (w.regs - 1) = some (some orig) →
      continue_exec w bps dd ≠
        Except.error (CEErr.panic Panic.expectInjected)) ∧
    (lookupBp bps (w.regs - 1) = none →
      continue_exec w bps dd ≠
        Except.error (CEErr.panic Panic.expectInjected)) := by
  refine ⟨fun h => ce_unarmed w bps dd h, ?_, ?_⟩
  · intro orig hbp
    simp only [continue_exec, ptraceGetregs, hbp]
    repeat' split
    all_goals simp
  · intro h
    rw [ce_notreg w bps dd h]
    simp

/-- Table with address 4096 registered but unarmed, for the C9 witness. -/
def bpsC9 : Table := [(4096, none)]

theorem continue_exec_unarmed_panic_witness :
    lookupBp bpsC9 (wC1x.regs - 1) = some none ∧
    continue_exec wC1x bpsC9 ddC1 =
      Except.error (CEErr.panic Panic.expectInjected) :=
  ⟨by rfl, (continue_exec_unarmed_panic wC1x bpsC9 ddC1).1 (by rfl)⟩

/-! ### Claim C6 -/

/-- C6: a `continue` command issued when no target is live only reports
the not-running message: no controller operation happens (there is no
target world for one to happen on) and the session state is unchanged
(the stored target stays `none`; the breakpoint table is taken immutably
and returned untouched by the arm's type). -/
theorem continue_no_target (bps : Table) (dd : DwarfData) :
    continueArm none bps dd = Except.ok (none, [Msg.notRunning]) := rfl

/-! ### Claim C7 -/

/-- C7: registering a breakpoint at an address already present in the
table is idempotent: the table is returned unchanged (no second entry is
ever created and no index is consumed), the stored target is returned
untouched (no arming write happens), and the message is the distinct
already-registered one — never a fresh "Set breakpoint N" message, so a
fresh index is announced at most once per address. -/
theorem record_breakpoint_idempotent (addr : Nat) (inferior : Option World)
    (bps : Table) (h : containsKey bps addr = true) :
    recordBreakpoint addr inferior bps =
      Except.ok (inferior, bps, [Msg.alreadyAdded addr]) ∧
    (∀ n a, Msg.alreadyAdded addr ≠ Msg.setBreakpoint n a) := by
  constructor
  · simp [recordBreakpoint, h]
  · intro n a
    simp

theorem record_breakpoint_idempotent_witness :
    containsKey [(4096, (none : Option Nat))] 4096 = true ∧
    recordBreakpoint 4096 none [(4096, none)] =
      Except.ok (none, [(4096, none)], [Msg.alreadyAdded 4096]) :=
  ⟨by rfl, (record_breakpoint_idempotent 4096 none [(4096, none)] (by rfl)).1⟩

/-! ### Claim C2 -/

/-- Fresh target for the C2 exhibit: the post-exec stop is the expected
SIGTRAP, after which the child runs to exit. -/
def wC2s : World :=
  { regs := 4096, mem := fun _ => 0, mapped := fun _ => true,
    waits := fun n =>
      if n = 0 then Status.Stopped Signal.SIGTRAP 4096 else Status.Exited 0,
    nwait := 0, events := [] }

/-- Resolver that resolves nothing, for the C2 exhibit. -/
def ddC2 : DwarfData :=
  { getFunctionFromAddr := fun _ => none, getLineFromAddr := fun _ => none,
    getAddrForLine := fun _ _ => none, getAddrForFunction := fun _ _ => none }

/-- State of the fresh target after the buggy `run`: one spawn wait, one
register read, a free resume and its wait — and no memory write at all. -/
def wC2final : World :=
  { regs := 4096, mem := fun _ => 0, mapped := fun _ => true,
    waits := fun n =>
      if n = 0 then Status.Stopped Signal.SIGTRAP 4096 else Status.Exited 0,
    nwait := 2,
    events := [Event.waitEvt, Event.getRegs, Event.contResume, Event.waitEvt] }

/-- C2 (code-bug exhibit): with the table entry {4096 ↦ Armed(144)} left
over from a previous target, the Run arm's injection loop skips the entry
(`if prev_byte.is_some() { continue; }`), so the whole `run` resumes the
fresh target having performed no `writeMem` at all: no trap byte is
installed (the byte at 4096 still reads 0, not 0xcc) and the stale entry
persists — the table is never reset to Unarmed and never re-armed. -/
theorem run_skips_previously_armed :
    armLoop [(4096, some 144)] wC2s [(4096, some 144)] =
      Except.ok (wC2s, [(4096, some 144)]) ∧
    runArm (some wC2s) none [(4096, some 144)] ddC2 =
      Except.ok (some wC2final, [(4096, some 144)], [Msg.childExited 0]) ∧
    wC2final.events =
      [Event.waitEvt, Event.getRegs, Event.contResume, Event.waitEvt] ∧
    wC2final.mem 4096 = 0 :=
  ⟨rfl, rfl, rfl, rfl⟩

/-! ### Claim C5 -/

/-- Target stopped one past the armed breakpoint 4096 whose memory is
entirely unmapped, for the C5 exhibits. -/
def wC5 : World :=
  { regs := 4097, mem := fun _ => 0, mapped := fun _ => false,
    waits := fun _ => Status.Exited 0, nwait := 0, events := [] }

/-- Resolver that resolves nothing, for the C5 exhibits. -/
def ddC5 : DwarfData :=
  { getFunctionFromAddr := fun _ => none, getLineFromAddr := fun _ => none,
    getAddrForLine := fun _ _ => none, getAddrForFunction := fun _ _ => none }

/-- C5 counterexample: a memory-access failure during `continue` (the word
holding the armed breakpoint is unmapped, so the restoring `ptrace::read`
fails with a `nix::Error`) is not caught at the Session boundary and not
rendered as a user message: the Continue arm's `.expect("nix::error")`
panics, terminating the program. -/
theorem continue_error_terminates :
    continueArm (some wC5) [(4096, some 144)] ddC5 =
      Except.error Panic.nixExpect ∧
    (continueArm (some wC5) [(4096, some 144)] ddC5).isOk = false := by
  have h : continue_exec wC5 [(4096, some 144)] ddC5 = Except.error CEErr.nix :=
    ce_armed_nixfail wC5 [(4096, some 144)] ddC5 144 (by rfl) rfl
  refine ⟨?_, ?_⟩ <;> simp [continueArm, h, Except.isOk, Except.toBool]

/-- C5 (amended): per-command handling is split.  Symbol-resolution misses
are rendered as user messages and leave the session state untouched and
usable; but a memory/register access failure during `continue` is NOT
caught at the Session boundary: the Continue arm's `.expect("nix::error")`
panic terminates the whole program. -/
theorem claim_C5_error_propagation (w : World) (bps : Table) (dd : DwarfData)
    (orig : Nat)
    (hbp : lookupBp bps (w.regs - 1) = some (some orig))
    (hmap : w.mapped (align_addr_to_word (w.regs - 1)) = false) :
    continueArm (some w) bps dd = Except.error Panic.nixExpect ∧
    (∀ tok n, startsWithL tok ['*', '0', 'x'] = false →
      parse_address tok = some n →
      dd.getAddrForLine none n = none →
      breakArm tok dd (some w) bps =
        Except.ok (some w, bps, [Msg.noSuchLine n])) ∧
    (∀ tok, startsWithL tok ['*', '0', 'x'] = false →
      parse_address tok = none →
      dd.getAddrForFunction none tok = none →
      breakArm tok dd (some w) bps =
        Except.ok (some w, bps, [Msg.noSuchFunction tok])) := by
  refine ⟨?_, ?_, ?_⟩
  · have h := ce_armed_nixfail w bps dd orig hbp hmap
    simp [continueArm, h]
  · intro tok n hstar hp hl
    simp [breakArm, hstar, hp, hl]
  · intro tok hstar hp hf
    simp [breakArm, hstar, hp, hf]

theorem claim_C5_error_propagation_witness :
    lookupBp [(4096, some 144)] (wC5.regs - 1) = some (some 144) ∧
    continueArm (some wC5) [(4096, some 144)] ddC5 =
      Except.error Panic.nixExpect :=
  ⟨by rfl,
   (claim_C5_error_propagation wC5 [(4096, some 144)] ddC5 144 (by rfl) rfl).1⟩

/-! ### Claim C8 -/

/-- C8: `Inferior::new` blocks on one wait and yields a target handle only
when the first observed classification is `Stopped(SIGTRAP)`; a spawn
failure or any other first classification yields `None`, upon which the
Run arm reports the launch-failure message, aborts the command, and
installs no new target: the previously stored target (if any) and the
breakpoint table are returned unchanged.  (Tracing is requested by
`pre_exec(child_traceme)` before the program image is executed; the model
takes this for granted.) -/
theorem claim_C8_spawn (w : World) (spawned inferior : Option World)
    (bps : Table) (dd : DwarfData) :
    inferior_new none = none ∧
    (∀ r, w.waits w.nwait = Status.Stopped Signal.SIGTRAP r →
      inferior_new (some w) =
        some { w with nwait := w.nwait + 1,
                      events := w.events ++ [Event.waitEvt] }) ∧
    (∀ code, w.waits w.nwait = Status.Exited code →
      inferior_new (some w) = none) ∧
    (∀ sig, w.waits w.nwait = Status.Signaled sig →
      inferior_new (some w) = none) ∧
    (∀ sig r, w.waits w.nwait = Status.Stopped sig r → sig ≠ Signal.SIGTRAP →
      inferior_new (some w) = none) ∧
    (inferior_new spawned = none →
      runArm spawned inferior bps dd =
        Except.ok (inferior, bps, [Msg.errorStartingSubproc])) := by
  refine ⟨rfl, ?_, ?_, ?_, ?_, ?_⟩
  · intro r h
    simp [inferior_new, inferiorWait, h]
  · intro code h
    simp [inferior_new, inferiorWait, h]
  · intro sig h
    simp [inferior_new, inferiorWait, h]
  · intro sig r h hsig
    simp [inferior_new, inferiorWait, h, hsig]
  · intro h
    simp [runArm, h]

/-- Spawned child that exits immediately instead of reaching the post-exec
trap, for the C8 witness. -/
def wC8 : World :=
  { regs := 0, mem := fun _ => 0, mapped := fun _ => true,
    waits := fun _ => Status.Exited 1, nwait := 0, events := [] }

/-- Resolver that resolves nothing, for the C8 witness. -/
def ddC8 : DwarfData :=
  { getFunctionFromAddr := fun _ => none, getLineFromAddr := fun _ => none,
    getAddrForLine := fun _ _ => none, getAddrForFunction := fun _ _ => none }

theorem claim_C8_spawn_witness :
    wC8.waits wC8.nwait = Status.Exited 1 ∧
    inferior_new (some wC8) = none ∧
    runArm (some wC8) none [] ddC8 =
      Except.ok (none, [], [Msg.errorStartingSubproc]) :=
  ⟨rfl,
   (claim_C8_spawn wC8 (some wC8) none [] ddC8).2.2.1 1 rfl,
   (claim_C8_spawn wC8 (some wC8) none [] ddC8).2.2.2.2.2 (by rfl)⟩

/-! ### Token parsing facts, for the break-command claims -/

/-- Value of a token read as a base-16 numeral (digits assumed valid). -/
def hexNum (s : List Char) : Nat :=
  s.foldl (fun m c => 16 * m + (hexDigitVal c).getD 0) 0

theorem startsWithL_star_of (tok : List Char)
    (h : startsWithL tok ['*'] = false) :
    startsWithL tok ['*', '0', 'x'] = false := by
  cases tok with
  | nil => rfl
  | cons c s =>
    simp [startsWithL] at h ⊢
    simp [h]

theorem lowerChar_ne_x_of_hex (c : Char) (h : (hexDigitVal c).isSome) :
    lowerChar c ≠ 'x' := by
  revert h
  unfold hexDigitVal
  split <;> intro h <;> first | decide | simp at h

theorem ne_plus_of_hex (c : Char) (h : (hexDigitVal c).isSome) : c ≠ '+' := by
  rintro rfl
  revert h
  decide

theorem hex_foldl_some (l : List Char) (n : Nat)
    (h : ∀ c ∈ l, (hexDigitVal c).isSome) :
    l.foldl hexStep (some n) =
      some (l.foldl (fun m c => 16 * m + (hexDigitVal c).getD 0) n) := by
  induction l generalizing n with
  | nil => rfl
  | cons c t ih =>
    obtain ⟨d, hd⟩ := Option.isSome_iff_exists.mp (h c (List.mem_cons_self c t))
    simp only [List.foldl_cons, hexStep, hd, Option.getD_some]
    exact ih (16 * n + d) (fun c' hc' => h c' (List.mem_cons_of_mem c hc'))

theorem parse_address_all_hex (tok : List Char) (hne : tok ≠ [])
    (h : ∀ c ∈ tok, (hexDigitVal c).isSome)
    (hbound : hexNum tok < 2 ^ 64) :
    parse_address tok = some (hexNum tok) := by
  obtain ⟨c, t, rfl⟩ : ∃ c t, tok = c :: t := by
    cases tok with
    | nil => exact absurd rfl hne
    | cons c t => exact ⟨c, t, rfl⟩
  have hpre : startsWithL ((c :: t).map lowerChar) ['0', 'x'] = false := by
    cases t with
    | nil => simp [startsWithL]
    | cons c' t' =>
      have hx := lowerChar_ne_x_of_hex c' (h c' (by simp))
      simp [startsWithL, hx]
  have hplus : c ≠ '+' := ne_plus_of_hex c (h c (by simp))
  rw [parse_address]
  simp only [hpre, Bool.false_eq_true, if_false]
  rw [fromStrRadix16]
  case x_1 =>
    intro rest heq
    injection heq with h1 _
    exact hplus h1
  simp only [List.isEmpty_cons, Bool.false_eq_true, if_false]
  rw [hex_foldl_some (c :: t) 0 h]
  show (if hexNum (c :: t) < 2 ^ 64 then some (hexNum (c :: t)) else none) =
    some (hexNum (c :: t))
  rw [if_pos hbound]

/-- Shared case analysis of the Break arm for tokens without the `*0x`
form: a token that parses as hexadecimal goes to the line lookup only,
a token that does not goes to the function lookup only, and each lookup
miss produces its message and leaves the table unchanged. -/
theorem breakArm_cases (tok : List Char) (dd : DwarfData)
    (inferior : Option World) (bps : Table)
    (hstar : startsWithL tok ['*', '0', 'x'] = false) :
    (∀ n, parse_address tok = some n →
      (∀ a, dd.getAddrForLine none n = some a →
        breakArm tok dd inferior bps = recordBreakpoint a inferior bps) ∧
      (dd.getAddrForLine none n = none →
        breakArm tok dd inferior bps =
          Except.ok (inferior, bps, [Msg.noSuchLine n]))) ∧
    (parse_address tok = none →
      (∀ a, dd.getAddrForFunction none tok = some a →
        breakArm tok dd inferior bps = recordBreakpoint a inferior bps) ∧
      (dd.getAddrForFunction none tok = none →
        breakArm tok dd inferior bps =
          Except.ok (inferior, bps, [Msg.noSuchFunction tok]))) := by
  constructor
  · intro n hp
    constructor
    · intro a ha
      simp [breakArm, hstar, hp, ha]
    · intro ha
      simp [breakArm, hstar, hp, ha]
  · intro hp
    constructor
    · intro a ha
      simp [breakArm, hstar, hp, ha]
    · intro ha
      simp [breakArm, hstar, hp, ha]

/-! ### Claim C3 -/

/-- Resolver for the C3 exhibits: it knows source line 256 (at address
999) and no function at all. -/
def ddC3 : DwarfData :=
  { getFunctionFromAddr := fun _ => none, getLineFromAddr := fun _ => none,
    getAddrForLine := fun _ n => if n = 256 then some 999 else none,
    getAddrForFunction := fun _ _ => none }

/-- C3 counterexample: the token "100" parses as the hexadecimal literal
256 but is NOT used directly as the breakpoint address: the code sends it
to the source-line lookup, which resolves line 256 to address 999, so the
breakpoint is registered at 999 and no table entry for 256 exists. -/
theorem hex_token_not_direct_address :
    breakArm ['1', '0', '0'] ddC3 none [] =
      Except.ok (none, [(999, none)], [Msg.setBreakpoint 0 999]) ∧
    parse_address ['1', '0', '0'] = some 256 ∧
    containsKey [(999, (none : Option Nat))] 256 = false :=
  ⟨rfl, rfl, rfl⟩

/-- C3 (amended): for every break token not of the `*0x` form: a token
that parses as a hexadecimal literal is interpreted as a LINE NUMBER (not
used directly as an address): the resolver is queried for that line's
address only, and a miss reports "No such line" naming the parsed value
(not the original token) with no function-entry fallback and no
registration; only a token that fails hexadecimal parsing is looked up as
a function entry, whose miss reports an error naming the original token,
again registering nothing. -/
theorem claim_C3_resolution (tok : List Char) (dd : DwarfData)
    (inferior : Option World) (bps : Table)
    (hstar : startsWithL tok ['*', '0', 'x'] = false) :
    (∀ n, parse_address tok = some n →
      (∀ a, dd.getAddrForLine none n = some a →
        breakArm tok dd inferior bps = recordBreakpoint a inferior bps) ∧
      (dd.getAddrForLine none n = none →
        breakArm tok dd inferior bps =
          Except.ok (inferior, bps, [Msg.noSuchLine n]))) ∧
    (parse_address tok = none →
      (∀ a, dd.getAddrForFunction none tok = some a →
        breakArm tok dd inferior bps = recordBreakpoint a inferior bps) ∧
      (dd.getAddrForFunction none tok = none →
        breakArm tok dd inferior bps =
          Except.ok (inferior, bps, [Msg.noSuchFunction tok]))) :=
  breakArm_cases tok dd inferior bps hstar

theorem claim_C3_resolution_witness :
    parse_address ['z', 'z'] = none ∧
    breakArm ['z', 'z'] ddC3 none [] =
      Except.ok (none, [], [Msg.noSuchFunction ['z', 'z']]) :=
  ⟨rfl,
   ((claim_C3_resolution ['z', 'z'] ddC3 none [] (by rfl)).2 (by rfl)).2 (by rfl)⟩

/-! ### Claim C10 -/

/-- C10: for every break token not starting with `*`: a token consisting
solely of hexadecimal digits (within the usize range) parses in base 16 —
so the token "10" denotes 16, requesting line 16 rather than line 10 —
and any token that parses is resolved exclusively as a source line (the
outcome never depends on the function resolver), while only tokens that
fail hexadecimal parsing are ever looked up as function names. -/
theorem claim_C10_hex_tokens_are_lines (tok : List Char) (dd dd' : DwarfData)
    (inferior : Option World) (bps : Table)
    (hstar : startsWithL tok ['*'] = false) :
    parse_address ['1', '0'] = some 16 ∧
    parse_address ['0', 'x', '1', '0'] = some 16 ∧
    parse_address ['0', 'X', '1', '0'] = some 16 ∧
    (tok ≠ [] → (∀ c ∈ tok, (hexDigitVal c).isSome) → hexNum tok < 2 ^ 64 →
      parse_address tok = some (hexNum tok)) ∧
    (∀ n, parse_address tok = some n →
      (∀ a, dd.getAddrForLine none n = some a →
        breakArm tok dd inferior bps = recordBreakpoint a inferior bps) ∧
      (dd.getAddrForLine none n = none →
        breakArm tok dd inferior bps =
          Except.ok (inferior, bps, [Msg.noSuchLine n]))) ∧
    (∀ n, parse_address tok = some n →
      dd.getAddrForLine = dd'.getAddrForLine →
      breakArm tok dd inferior bps = breakArm tok dd' inferior bps) ∧
    (parse_address tok = none →
      (∀ a, dd.getAddrForFunction none tok = some a →
        breakArm tok dd inferior bps = recordBreakpoint a inferior bps) ∧
      (dd.getAddrForFunction none tok = none →
        breakArm tok dd inferior bps =
          Except.ok (inferior, bps, [Msg.noSuchFunction tok]))) := by
  have hstar3 := startsWithL_star_of tok hstar
  refine ⟨rfl, rfl, rfl, parse_address_all_hex tok,
    (breakArm_cases tok dd inferior bps hstar3).1, ?_,
    (breakArm_cases tok dd inferior bps hstar3).2⟩
  intro n hp hline
  simp [breakArm, hstar3, hp, hline]

/-- Resolver pair for the C10 witness: identical line tables (line 16 at
address 2000), different function tables. -/
def ddC10a : DwarfData :=
  { getFunctionFromAddr := fun _ => none, getLineFromAddr := fun _ => none,
    getAddrForLine := fun _ n => if n = 16 then some 2000 else none,
    getAddrForFunction := fun _ _ => none }

/-- Second element of the C10 resolver pair. -/
def ddC10b : DwarfData :=
  { getFunctionFromAddr := fun _ => none, getLineFromAddr := fun _ => none,
    getAddrForLine := fun _ n => if n = 16 then some 2000 else none,
    getAddrForFunction := fun _ t => if t = ['m', 'a', 'i', 'n'] then some 1 else none }

theorem claim_C10_hex_tokens_are_lines_witness :
    parse_address ['1', '0'] = some 16 ∧
    breakArm ['1', '0'] ddC10a none [] = recordBreakpoint 2000 none [] ∧
    breakArm ['1', '0'] ddC10a none [] = breakArm ['1', '0'] ddC10b none [] :=
  ⟨(claim_C10_hex_tokens_are_lines ['1', '0'] ddC10a ddC10b none [] (by rfl)).1,
   ((claim_C10_hex_tokens_are_lines ['1', '0'] ddC10a ddC10b none []
      (by rfl)).2.2.2.2.1 16 (by rfl)).1 2000 (by rfl),
   (claim_C10_hex_tokens_are_lines ['1', '0'] ddC10a ddC10b none []
      (by rfl)).2.2.2.2.2.1 16 (by rfl) rfl⟩

end Deet
